import Mathlib

/-!
Verification of the `fvalue` formatted-measurement library (`src/fvalue/fvalue.py`).

The library operates on Python `decimal.Decimal` values under the default context
(precision 28 significant digits, rounding traps enabled).  A `Decimal` is a pair of an
integer coefficient and an integer exponent, embedded here as the structure `Dec`
(`mant * 10 ^ exp`).  The embedding keeps the source's two-phase rounding:

* `rounded_error`  : scale the error by a truthy multiplier, discover the quantum that
  keeps `error_significant_figures` significant digits (the `"%#.Ng" % error` format),
  then requantize with the configured rounding policy (`Decimal.quantize`), which raises
  `InvalidOperation` when the result needs more than 28 digits;
* `rounded_value`  : scale the value and quantize it to the rounded error's quantum;
* `rounded_data`   : the leading-zero / exponent heuristic (`"%E" % x` parsing,
  `floor(log10 error)` correction) followed by `scaleb`;
* `formatted` / `str_` : fixed-point stringification and template application.

Modelling notes (the float-mediated steps of the source cannot be embedded exactly, so
the universal theorems below carry explicit domain hypotheses confining them to where
the model provably coincides with the program):

* `"%#.Ng" % error` converts the `Decimal` to a binary double and prints it, but only the
  decimal EXPONENT of that output is consumed (the quantize target).  It is modelled by
  rounding the exact decimal to `N` significant digits with round-half-even
  (`roundSigHE`).  The model quantum equals the program's whenever the decimal has at
  most `N ≤ 15` significant digits and a magnitude in the normal binary64 range
  (adjusted exponent within about `±307`); outside that range the double is subnormal,
  zero or infinite and the program's quantum shifts (e.g. `Decimal("1.01E-323")` at two
  figures prints `9.9e-324`, real quantum `-325`, model quantum `-324`) or, past
  `~1.8E+308`, `Decimal("inf")` makes the subsequent quantize raise.
* `"%E" % x` (inside `_leading_zeroes`) prints the double with 7 significant digits; its
  exponent is modelled as the adjusted exponent of the exact decimal rounded half-even to
  7 significant digits (`expE`).  The model is exact for decimals of at most 7 (more
  generally 15) significant digits in the normal binary64 range; for subnormal doubles
  the program prints the perturbed double (`Decimal("1E-323")` prints `9.881313E-324`,
  measuring one extra leading zero), and past `~1.8E+308` it prints `INF`, whose missing
  `E` makes `.index("E")` raise `ValueError` — a source error path this model does not
  carry.
* `floor(error.log10())` is modelled as the adjusted (scientific) exponent of the exact
  positive decimal; the context's 28-digit approximation of the logarithm agrees with it
  except when the error is within `10^-27` relative distance below a power of ten (a
  28-nines coefficient), where the code's correction is one larger.  `log10` of a
  negative number raises `InvalidOperation`, which is modelled.
* The rounding setter stores its RAW argument (fvalue.py:94), so an accepted mode
  STRING, though validated, later raises `AttributeError` at `self.rounding.value`.
  This model's states carry only the eight enum members; theorems about the rounding
  pipeline therefore speak about member-committed instances.
* Context arithmetic: `error * Decimal(multiplier)` and `scaleb` round their result to 28
  significant digits half-even (`mulCtx`, `scalebCtx`); `quantize` raises
  `InvalidOperation` when the result has more than 28 digits (`quantizeChecked`).  The
  context's exponent limits (`Emax = 999999`) are not modelled.
-/

/-- Fuel-driven decimal digit count of a natural number: `digLen fuel n` is the number of
decimal digits of `n` (with `digLen _ 0 = 1`), correct whenever `n ≤ fuel`.  Structural in
the fuel so that the kernel can evaluate it on concrete inputs. -/
def digLen : Nat → Nat → Nat
  | 0, _ => 1
  | fuel + 1, n => if n < 10 then 1 else digLen fuel (n / 10) + 1

/-- Number of decimal digits of a natural number (`digitsN 0 = 1`). -/
def digitsN (n : Nat) : Nat := digLen n n

deriving instance DecidableEq for Except

/-- A decimal number in coefficient/exponent form, the value being `mant * 10 ^ exp`.
This is exactly the representation of Python's `decimal.Decimal` (finite values): the
coefficient is not normalised, so trailing zeroes of the coefficient are significant for
display even though they do not change the numeric value. -/
structure Dec where
  mant : Int
  exp : Int
  deriving DecidableEq, Repr

/-- Numeric value of a `Dec` as a rational number. -/
def Dec.val (x : Dec) : ℚ := (x.mant : ℚ) * 10 ^ x.exp

/-- The adjusted (scientific-notation) exponent of a decimal: for `x ≠ 0` this is the
integer `E` with `10^E ≤ |x| < 10^(E+1)`.  Matches `Decimal.adjusted()`. -/
def Dec.adjusted (x : Dec) : Int := (digitsN x.mant.natAbs : Int) - 1 + x.exp

/-- The eight members of `RoundingOption` in `src/fvalue/fvalue.py`, one per rounding
mode of Python's `decimal` module. -/
inductive RoundingOption where
  | ROUND_HALF_EVEN
  | ROUND_05UP
  | ROUND_CEILING
  | ROUND_DOWN
  | ROUND_FLOOR
  | ROUND_HALF_DOWN
  | ROUND_HALF_UP
  | ROUND_UP
  deriving DecidableEq, Repr

/-- Rounding of a nonnegative magnitude quotient: given `|dividend| = q * d + r` with
`0 ≤ r < d`, choose `q` or `q + 1` according to the decimal rounding mode.  `neg` tells
whether the dividend is negative (floor/ceiling are direction-sensitive).  This is the
digit-discarding step of `decimal` quantization. -/
def roundQuot (p : RoundingOption) (neg : Bool) (q r d : Nat) : Nat :=
  match p with
  | .ROUND_DOWN => q
  | .ROUND_UP => if r = 0 then q else q + 1
  | .ROUND_FLOOR => if r = 0 then q else if neg then q + 1 else q
  | .ROUND_CEILING => if r = 0 then q else if neg then q else q + 1
  | .ROUND_HALF_UP => if d ≤ 2 * r then q + 1 else q
  | .ROUND_HALF_DOWN => if d < 2 * r then q + 1 else q
  | .ROUND_HALF_EVEN =>
      if d < 2 * r then q + 1 else if 2 * r = d then (if q % 2 = 1 then q + 1 else q) else q
  | .ROUND_05UP => if r = 0 then q else if q % 10 = 0 ∨ q % 10 = 5 then q + 1 else q

/-- `Decimal.quantize` without the context precision check: rescale `x` to the target
exponent `t`, padding exactly when `t ≤ x.exp` and discarding digits with the rounding
mode `p` otherwise.  The result's exponent is always `t`. -/
def quantizeRaw (p : RoundingOption) (x : Dec) (t : Int) : Dec :=
  if t ≤ x.exp then
    ⟨x.mant * (10 : Int) ^ (x.exp - t).toNat, t⟩
  else
    let d := 10 ^ (t - x.exp).toNat
    let a := x.mant.natAbs
    let q := roundQuot p (decide (x.mant < 0)) (a / d) (a % d) d
    ⟨if x.mant < 0 then -(q : Int) else (q : Int), t⟩

/-- The modelled downstream failure of the decimal context: `InvalidOperation`, raised
by `quantize` when the result has more than 28 digits and by `log10` of a negative
number.  The source has further downstream error paths that lie outside this model's
domain: `ValueError` from parsing `"INF"` in `_leading_zeroes` when a magnitude
overflows binary64, and `AttributeError` from `self.rounding.value` when the committed
rounding is a raw mode string. -/
inductive DecErr where
  | invalidOperation
  deriving DecidableEq, Repr

/-- `Decimal.quantize` under the default context: raises `InvalidOperation` when the
ideal result's coefficient has more than 28 digits. -/
def quantizeChecked (p : RoundingOption) (x : Dec) (t : Int) : Except DecErr Dec :=
  let y := quantizeRaw p x t
  if 28 < digitsN y.mant.natAbs then .error .invalidOperation else .ok y

/-- Round a decimal half-even to `n` significant digits (target exponent
`adjusted - n + 1`).  Models the digit-rounding performed by `printf`-style formatting of
the value at precision `n`. -/
def roundSigHE (x : Dec) (n : Nat) : Dec :=
  quantizeRaw .ROUND_HALF_EVEN x (x.adjusted - n + 1)

/-- Rounding of an over-precise result to the context's 28 significant digits (applied by
decimal arithmetic operators such as `*` and `scaleb`).  A carry past `10^28` is
renormalised to a 28-digit coefficient, as in `decimal`'s `_fix`. -/
def round28 (z : Dec) : Dec :=
  if digitsN z.mant.natAbs ≤ 28 then z
  else
    let y := quantizeRaw .ROUND_HALF_EVEN z (z.adjusted - 27)
    if 28 < digitsN y.mant.natAbs then ⟨y.mant / 10, y.exp + 1⟩ else y

/-- Context multiplication `x * y` of two decimals: exact product rounded to the context
precision. -/
def mulCtx (x y : Dec) : Dec := round28 ⟨x.mant * y.mant, x.exp + y.exp⟩

/-- `Decimal.scaleb`: multiply by `10 ^ k`, rounding to context precision (only relevant
when the coefficient has more than 28 digits). -/
def scalebCtx (x : Dec) (k : Int) : Dec := round28 ⟨x.mant, x.exp + k⟩

/-- The exponent printed by `"%E" % x` for nonzero `x`, modelled on the exact decimal:
the adjusted exponent of `x` rounded to the 7 significant digits of the default `%E`
precision.  It exceeds `x.adjusted` by one exactly when that rounding carries past a
power of ten.  The source formats the binary double of `x`, which agrees with this for
decimals of at most 15 significant digits in the normal binary64 range; subnormal
doubles print perturbed exponents (`1E-323` prints `9.881313E-324`) and overflow prints
`INF` (see the header notes), so theorems relying on `expE` carry digit-count and
magnitude hypotheses. -/
def expE (x : Dec) : Int := (roundSigHE x 7).adjusted

/-- The quantum (target exponent) discovered by `"%#.Ng" % error` in `_rounded_error`,
modelled on the exact decimal: the exponent that keeps exactly `n` significant digits of
`error`, based on the adjusted exponent of the half-even rounding of `error` to `n`
digits (zero is formatted as `0.` followed by `n - 1` zeroes, quantum `1 - n`).  The
source discovers the quantum from the printed binary double; for subnormal magnitudes
the real quantum can sit one lower (`1.01E-323` at two figures: real `-325`, model
`-324`), which theorems below account for by domain hypotheses or by claiming only the
bounds that survive the shift. -/
def gQuantum (x : Dec) (n : Nat) : Int :=
  if x.mant = 0 then 1 - (n : Int) else (roundSigHE x n).adjusted - n + 1

/-- The validated record of `FormattedValue`: a central value, a nonnegative error, the
number of significant figures kept in the error (`≥ 1`), the leading-zeroes threshold
(`≥ 0`) and the rounding policy.  The invariants are enforced by the setters (`set_error`
etc.) and stated as hypotheses of the theorems below. -/
structure FormattedValue where
  value : Dec
  error : Dec
  error_significant_figures : Nat
  leading_zeroes_threshold : Nat
  rounding : RoundingOption
  deriving DecidableEq, Repr

namespace FormattedValue

/-- Truthiness-guarded scaling shared by `_rounded_error` and `_rounded_value`:
`x * Decimal(multiplier) if multiplier else x`.  A multiplier of `None` or (falsy)
numeric zero leaves `x` unscaled. -/
def scaled (x : Dec) (multiplier : Option Dec) : Dec :=
  match multiplier with
  | none => x
  | some m => if m.mant = 0 then x else mulCtx x m

/-- `FormattedValue._rounded_error`: scale the error by a truthy multiplier, discover the
significant-figure quantum with `"%#.Ng"`, and requantize with the configured policy
(`InvalidOperation` when the result exceeds 28 digits). -/
def rounded_error (s : FormattedValue) (multiplier : Option Dec) : Except DecErr Dec :=
  let error := scaled s.error multiplier
  quantizeChecked s.rounding error (gQuantum error s.error_significant_figures)

/-- `FormattedValue._rounded_value`: scale the value by a truthy multiplier and quantize
it to the rounded error's exponent with the configured policy. -/
def rounded_value (s : FormattedValue) (rounded_err : Dec) (multiplier : Option Dec) :
    Except DecErr Dec :=
  quantizeChecked s.rounding (scaled s.value multiplier) rounded_err.exp

/-- `FormattedValue._leading_zeroes`: parse the exponent out of `"%E" % x` and return its
magnitude when negative, else `0`.  The printed exponent is modelled by `expE x` (exact
within its documented domain); `"%E" % 0` prints exponent `0`.  The source's
`ValueError` path — `"INF".index("E")` fails when the double overflows past
`~1.8E+308` — is not carried here, so the theorems that measure leading zeroes bound
the operands' magnitudes. -/
def leading_zeroes (x : Dec) : Int :=
  if x.mant = 0 then 0 else if 0 ≤ expE x then 0 else -expE x

/-- The power-of-ten-carry correction of `rounded_data` step 3: `d = floor(log10 error)`,
`0` when `d < error_significant_figures`, else `d - error_significant_figures + 1`.
Defined for positive `error` (the code raises on negative error before reaching it).
`floor(error.log10())` is modelled as the exact adjusted exponent; the context's
28-digit logarithm rounds up for an error within `10^-27` relative below a power of ten
(a 28-nines coefficient), where the code's correction is one larger — unreachable for
the bounded-digit errors the theorems below quantify over. -/
def correction_of (n : Nat) (error : Dec) : Int :=
  if error.adjusted < (n : Int) then 0 else error.adjusted - n + 1

/-- The scaleb exponent chosen by `FormattedValue.rounded_data`: the minimum measured
leading-zero count when it exceeds the threshold, minus the carry correction when the
rounded error is nonzero. -/
def exponent_shift (s : FormattedValue) (value error : Dec) : Int :=
  let minimum_leading_zeroes :=
    if error.mant ≠ 0 then min (leading_zeroes value) (leading_zeroes error)
    else leading_zeroes value
  let exponent :=
    if (s.leading_zeroes_threshold : Int) < minimum_leading_zeroes then minimum_leading_zeroes
    else 0
  if error.mant ≠ 0 then exponent - correction_of s.error_significant_figures error
  else exponent

/-- The value computed by `rounded_data` before the heuristic: the raw unscaled `value`
when the rounded error is zero (losing the multiplier), the matched-precision
`_rounded_value` otherwise. -/
def value_branch (s : FormattedValue) (error : Dec) (multiplier : Option Dec) :
    Except DecErr Dec :=
  if error.mant = 0 then .ok s.value else rounded_value s error multiplier

/-- `FormattedValue.rounded_data`: round the error, round the value to match it (the raw
unscaled value when the rounded error is zero), apply the leading-zero/exponent
heuristic, and scale both by `10 ^ exponent`.  `floor(log10 error)` raises
`InvalidOperation` when the rounded error is negative (possible via a negative
multiplier). -/
def rounded_data (s : FormattedValue) (multiplier : Option Dec) :
    Except DecErr (Dec × Dec × Int) :=
  match rounded_error s multiplier with
  | .error e => .error e
  | .ok error =>
    match value_branch s error multiplier with
    | .error e => .error e
    | .ok value =>
      if error.mant < 0 then .error .invalidOperation
      else
        let exponent := exponent_shift s value error
        .ok (scalebCtx value exponent, scalebCtx error exponent, -exponent)

/-- `FormattedValue.actual_data`: the raw pair exactly as stored. -/
def actual_data (s : FormattedValue) : Dec × Dec := (s.value, s.error)

end FormattedValue

/-- Decimal digit string of a natural number. -/
def natDigits (n : Nat) : String := ⟨Nat.toDigits 10 n⟩

/-- `"{:f}".format(x)` for a decimal: fixed-point form, never scientific.  A nonnegative
exponent multiplies the coefficient out with no decimal point; a negative exponent `-k`
prints exactly `k` fractional digits (trailing zeroes of the coefficient preserved). -/
def fString (x : Dec) : String :=
  let sign := if x.mant < 0 then "-" else ""
  let a := x.mant.natAbs
  if 0 ≤ x.exp then sign ++ natDigits (a * 10 ^ x.exp.toNat)
  else
    let k := (-x.exp).toNat
    let fs := natDigits (a % 10 ^ k)
    let pad := String.mk (List.replicate (k - fs.length) '0')
    sign ++ natDigits (a / 10 ^ k) ++ "." ++ pad ++ fs

/-- `"{:d}".format(i)` for an integer exponent. -/
def dString (i : Int) : String :=
  if i < 0 then "-" ++ natDigits i.natAbs else natDigits i.natAbs

/-- The `template` argument of `FormattedValue.formatted`: `None` (falling back to the
siunitx default), a positional four-slot pattern string, or a rendering function over the
four formatted strings. -/
inductive Template where
  | default
  | pattern (p : String)
  | renderer (f : String → String → String → String → String)

/-- Application of `FormattedValue.SIUNITX_TEMPLATE`
(`\SI{<value> \pm <error> e<exponent>}{<units>}`). -/
def siunitx_format (value error exponent units : String) : String :=
  "\\SI\x7b" ++ value ++ " \\pm " ++ error ++ " e" ++ exponent ++ "\x7d\x7b" ++ units ++ "\x7d"

/-- `str.format` with four positional arguments for a well-formed slot pattern: every
`\x7bi\x7d` with `i` in `0..3` is replaced by the corresponding argument.  (Malformed
patterns raise in Python and are outside this model.) -/
def apply_slots (a b c u : String) : List Char → String
  | '\x7b' :: i :: '\x7d' :: rest =>
      (if i = '0' then a else if i = '1' then b else if i = '2' then c
       else if i = '3' then u else "") ++ apply_slots a b c u rest
  | ch :: rest => ch.toString ++ apply_slots a b c u rest
  | [] => ""

/-- `FormattedValue._natural_format`: omit the power-of-ten clause for exponent `"0"`,
print `x 10` without a caret for exponent `"1"`, and `x 10^n` otherwise; parenthesise
and append the units when they are nonempty. -/
def natural_format (value error exponent units : String) : String :=
  if exponent = "0" then
    if units ≠ "" then "(" ++ value ++ " ± " ++ error ++ ") " ++ units
    else value ++ " ± " ++ error
  else if exponent = "1" then
    if units ≠ "" then "(" ++ value ++ " ± " ++ error ++ ") x 10 " ++ units
    else "(" ++ value ++ " ± " ++ error ++ ") x 10"
  else
    if units ≠ "" then "(" ++ value ++ " ± " ++ error ++ ") x 10^" ++ exponent ++ " " ++ units
    else "(" ++ value ++ " ± " ++ error ++ ") x 10^" ++ exponent

namespace FormattedValue

/-- `FormattedValue.formatted`: compute the rounded triple, stringify its components in
fixed-point / plain-integer form, and apply the template (a falsy template — `None` or
the empty pattern — falls back to the siunitx default). -/
def formatted (s : FormattedValue) (template : Template) (multiplier : Option Dec)
    (units : String) : Except DecErr String :=
  match rounded_data s multiplier with
  | .error e => .error e
  | .ok (rv, re, ex) =>
    let value := fString rv
    let error := fString re
    let exponent := dString ex
    match template with
    | .default => .ok (siunitx_format value error exponent units)
    | .pattern p =>
        if p = "" then .ok (siunitx_format value error exponent units)
        else .ok (apply_slots value error exponent units p.data)
    | .renderer f => .ok (f value error exponent units)

/-- `FormattedValue.__str__`: format with the natural-language template, no multiplier,
empty units. -/
def str_ (s : FormattedValue) : Except DecErr String :=
  formatted s (.renderer natural_format) none ""

end FormattedValue

/-- The Python exception classes raised by the validating setters. -/
inductive PyErr where
  | valueError
  | typeError
  deriving DecidableEq, Repr

/-- An argument that Python type-checks with `type(x) is int`: either an actual integer
or some value of another type. -/
inductive IntArg where
  | ofInt (n : Int)
  | notInt
  deriving DecidableEq

/-- The `rounding` argument of the setter: either one of the eight `RoundingOption`
members (or its underlying `decimal` mode value, which `RoundingOption(...)` also
accepts), or a value that `RoundingOption(...)` rejects with `ValueError`. -/
inductive RoundingArg where
  | ofOption (r : RoundingOption)
  | invalid
  deriving DecidableEq

namespace FormattedValue

/-- The `error` setter: reject a negative error with `ValueError`, otherwise commit only
the `error` field.  A rejected write returns no new state, so the caller's previous
(valid) record is untouched. -/
def set_error (s : FormattedValue) (error : Dec) : Except PyErr FormattedValue :=
  if error.mant < 0 then .error .valueError else .ok { s with error := error }

/-- The `error_significant_figures` setter: `TypeError` for a non-`int`, `ValueError`
below `1`, else commit only that field. -/
def set_error_significant_figures (s : FormattedValue) (n : IntArg) :
    Except PyErr FormattedValue :=
  match n with
  | .notInt => .error .typeError
  | .ofInt n =>
      if n < 1 then .error .valueError
      else .ok { s with error_significant_figures := n.toNat }

/-- The `leading_zeroes_threshold` setter: `TypeError` for a non-`int`, `ValueError`
below `0`, else commit only that field. -/
def set_leading_zeroes_threshold (s : FormattedValue) (n : IntArg) :
    Except PyErr FormattedValue :=
  match n with
  | .notInt => .error .typeError
  | .ofInt n =>
      if n < 0 then .error .valueError
      else .ok { s with leading_zeroes_threshold := n.toNat }

/-- The `rounding` setter: `RoundingOption(rounding)` raises `ValueError` outside the
closed set of eight policies.  The source then commits the RAW argument
(fvalue.py:94) — a member stays a member, but an accepted mode string is stored as a
string, and its later `self.rounding.value` access raises `AttributeError` in the
rounding pipeline.  This model's state holds the corresponding member in both accepted
cases, so the pipeline theorems describe member-committed instances. -/
def set_rounding (s : FormattedValue) (r : RoundingArg) : Except PyErr FormattedValue :=
  match r with
  | .invalid => .error .valueError
  | .ofOption r => .ok { s with rounding := r }

/-- `FormattedValue.__init__`: assign `value` (unvalidated), then run the four validating
setters in source order; any violation aborts construction with that setter's error and
no record is produced. -/
def mk_ (value : Dec) (error : Dec) (error_significant_figures : IntArg)
    (leading_zeroes_threshold : IntArg) (rounding : RoundingArg) :
    Except PyErr FormattedValue :=
  match set_error ⟨value, ⟨0, 0⟩, 1, 3, .ROUND_HALF_EVEN⟩ error with
  | .error e => .error e
  | .ok s =>
    match set_error_significant_figures s error_significant_figures with
    | .error e => .error e
    | .ok s =>
      match set_leading_zeroes_threshold s leading_zeroes_threshold with
      | .error e => .error e
      | .ok s => set_rounding s rounding

end FormattedValue

/-- Modelled from the spec (§4.4): `zeroMeasure(x) = max(0, -E)` where `E` is the exact
scientific-notation exponent of `x` (`0` for `x = 0`).  This is the measure the spec's
heuristic formula is stated with; the code instead parses the exponent of the 7-digit
`"%E"` rendering (`leading_zeroes`). -/
def zeroMeasure (x : Dec) : Int :=
  if x.mant = 0 then 0 else max 0 (-x.adjusted)

/-- Modelled from the spec (§4.4 steps 1–3), parameterised by the leading-zero measure:
`base` is the minimum measure (the value's alone when the error is zero), `shift` is
`base` past the threshold, lowered by the power-of-ten-carry correction when the error is
nonzero. -/
def specShiftWith (measure : Dec → Int) (value error : Dec) (n thr : Nat) : Int :=
  let base := if error.mant ≠ 0 then min (measure value) (measure error) else measure value
  let shift := if base > (thr : Int) then base else 0
  if error.mant ≠ 0 then
    let d := error.adjusted
    shift - (if d < (n : Int) then 0 else d - (n : Int) + 1)
  else shift

/-- Modelled from the spec (§4.4 step 4, claim C3): the triple
`(value × 10^shift, error × 10^shift, -shift)` with the shift computed from the exact
`zeroMeasure` and exact scaling. -/
def specTriple (value error : Dec) (n thr : Nat) : Dec × Dec × Int :=
  let shift := specShiftWith zeroMeasure value error n thr
  (⟨value.mant, value.exp + shift⟩, ⟨error.mant, error.exp + shift⟩, -shift)

/-! ### Arithmetic facts about the digit count -/

theorem digLen_pos (f n : Nat) : 0 < digLen f n := by
  induction f generalizing n with
  | zero => simp [digLen]
  | succ f ih =>
    rw [digLen]
    split
    · exact Nat.one_pos
    · exact Nat.succ_pos _

theorem digLen_lt_pow (f : Nat) : ∀ n, n ≤ f → n < 10 ^ digLen f n := by
  induction f with
  | zero =>
    intro n hn
    interval_cases n
    simp [digLen]
  | succ f ih =>
    intro n hn
    rw [digLen]
    split
    · simpa using by assumption
    · rename_i h
      push_neg at h
      have hdiv : n / 10 ≤ f := by
        have := Nat.div_lt_self (by omega : 0 < n) (by omega : 1 < 10)
        omega
      have h1 := ih (n / 10) hdiv
      have h2 := Nat.div_add_mod n 10
      have h3 : n % 10 < 10 := Nat.mod_lt _ (by omega)
      rw [pow_succ]
      omega

theorem digLen_pow_le (f : Nat) : ∀ n, n ≤ f → 1 ≤ n → 10 ^ (digLen f n - 1) ≤ n := by
  induction f with
  | zero => omega
  | succ f ih =>
    intro n hn h1
    rw [digLen]
    split
    · simpa
    · rename_i h
      push_neg at h
      have hdiv : n / 10 ≤ f := by
        have := Nat.div_lt_self (by omega : 0 < n) (by omega : 1 < 10)
        omega
      have h2 := ih (n / 10) hdiv (by omega : 1 ≤ n / 10)
      have h3 := digLen_pos f (n / 10)
      have h4 : digLen f (n / 10) + 1 - 1 = digLen f (n / 10) - 1 + 1 := by omega
      rw [h4, pow_succ]
      have h5 := Nat.div_add_mod n 10
      omega

theorem digitsN_pos (n : Nat) : 0 < digitsN n := digLen_pos n n

theorem lt_pow_digitsN (n : Nat) : n < 10 ^ digitsN n := digLen_lt_pow n n le_rfl

theorem pow_digitsN_le (n : Nat) (h : 1 ≤ n) : 10 ^ (digitsN n - 1) ≤ n :=
  digLen_pow_le n n le_rfl h

theorem digitsN_le_of_lt_pow {n k : Nat} (hk : 1 ≤ k) (h : n < 10 ^ k) : digitsN n ≤ k := by
  rcases Nat.eq_zero_or_pos n with rfl | hn
  · have : digitsN 0 = 1 := rfl
    omega
  · by_contra hcon
    push_neg at hcon
    have h1 := pow_digitsN_le n hn
    have h2 : 10 ^ k ≤ 10 ^ (digitsN n - 1) :=
      Nat.pow_le_pow_right (by omega) (by omega)
    omega

theorem lt_digitsN_of_pow_le {n k : Nat} (h : 10 ^ k ≤ n) : k < digitsN n := by
  have h1 := lt_pow_digitsN n
  have h2 : 10 ^ k < 10 ^ digitsN n := lt_of_le_of_lt h h1
  exact (Nat.pow_lt_pow_iff_right (by omega)).mp h2

theorem digitsN_eq_of {n k : Nat} (hk : 1 ≤ k) (hlo : 10 ^ (k - 1) ≤ n)
    (hhi : n < 10 ^ k) : digitsN n = k := by
  have h1 := digitsN_le_of_lt_pow hk hhi
  have h2 := lt_digitsN_of_pow_le hlo
  omega

theorem digitsN_mul_pow {m : Nat} (h : 1 ≤ m) (d : Nat) :
    digitsN (m * 10 ^ d) = digitsN m + d := by
  have hpos := digitsN_pos m
  apply digitsN_eq_of (by omega)
  · have h1 := pow_digitsN_le m h
    have heq : 10 ^ (digitsN m + d - 1) = 10 ^ (digitsN m - 1) * 10 ^ d := by
      rw [← pow_add]
      congr 1
      omega
    rw [heq]
    exact Nat.mul_le_mul_right _ h1
  · have h2 := lt_pow_digitsN m
    calc m * 10 ^ d < 10 ^ digitsN m * 10 ^ d :=
          (Nat.mul_lt_mul_right (Nat.pos_pow_of_pos d (by omega))).mpr h2
      _ = 10 ^ (digitsN m + d) := (pow_add 10 _ _).symm

/-! ### Facts about the rounding kernel -/

theorem roundQuot_eq_or (p : RoundingOption) (ng : Bool) (q r d : Nat) :
    roundQuot p ng q r d = q ∨ roundQuot p ng q r d = q + 1 := by
  cases p <;> dsimp only [roundQuot] <;> repeat' split
  all_goals omega

theorem quantizeRaw_exp (p : RoundingOption) (x : Dec) (t : Int) :
    (quantizeRaw p x t).exp = t := by
  unfold quantizeRaw
  split <;> rfl

theorem quantizeRaw_nonneg (p : RoundingOption) (x : Dec) (t : Int) (h : 0 ≤ x.mant) :
    0 ≤ (quantizeRaw p x t).mant := by
  unfold quantizeRaw
  split
  · exact mul_nonneg h (by positivity)
  · dsimp only
    split
    · omega
    · exact Int.natCast_nonneg _

theorem quantizeRaw_natAbs_le (p : RoundingOption) (x : Dec) (t : Int) (D j : Nat)
    (hD : x.mant.natAbs < 10 ^ D) (hj : (D : Int) ≤ (j : Int) + (t - x.exp)) :
    (quantizeRaw p x t).mant.natAbs ≤ 10 ^ j := by
  unfold quantizeRaw
  split
  · rename_i h
    dsimp only
    rw [Int.natAbs_mul, Int.natAbs_pow]
    have hδ : ((x.exp - t).toNat : Int) = x.exp - t := Int.toNat_of_nonneg (by omega)
    have hdj : D + (x.exp - t).toNat ≤ j := by omega
    refine le_of_lt ?_
    calc x.mant.natAbs * (10 : Int).natAbs ^ (x.exp - t).toNat
        ≤ (10 ^ D - 1) * 10 ^ (x.exp - t).toNat := by
          have h10 : (10 : Int).natAbs = 10 := rfl
          rw [h10]
          exact Nat.mul_le_mul_right _ (by omega)
      _ < 10 ^ D * 10 ^ (x.exp - t).toNat := by
          have hp1 : 0 < 10 ^ (x.exp - t).toNat := Nat.pos_pow_of_pos _ (by omega)
          have hp2 : 0 < 10 ^ D := Nat.pos_pow_of_pos _ (by omega)
          exact (Nat.mul_lt_mul_right hp1).mpr (by omega)
      _ = 10 ^ (D + (x.exp - t).toNat) := (pow_add 10 _ _).symm
      _ ≤ 10 ^ j := Nat.pow_le_pow_right (by omega) hdj
  · rename_i h
    push_neg at h
    dsimp only
    have hδ : ((t - x.exp).toNat : Int) = t - x.exp := Int.toNat_of_nonneg (by omega)
    have hd : 0 < 10 ^ (t - x.exp).toNat := Nat.pos_pow_of_pos _ (by omega)
    have habs : (if x.mant < 0 then
        -(↑(roundQuot p (decide (x.mant < 0)) (x.mant.natAbs / 10 ^ (t - x.exp).toNat)
          (x.mant.natAbs % 10 ^ (t - x.exp).toNat) (10 ^ (t - x.exp).toNat)) : Int)
        else (↑(roundQuot p (decide (x.mant < 0)) (x.mant.natAbs / 10 ^ (t - x.exp).toNat)
          (x.mant.natAbs % 10 ^ (t - x.exp).toNat) (10 ^ (t - x.exp).toNat)) : Int)).natAbs
        = roundQuot p (decide (x.mant < 0)) (x.mant.natAbs / 10 ^ (t - x.exp).toNat)
          (x.mant.natAbs % 10 ^ (t - x.exp).toNat) (10 ^ (t - x.exp).toNat) := by
      split <;> simp
    rw [habs]
    have hq := roundQuot_eq_or p (decide (x.mant < 0))
      (x.mant.natAbs / 10 ^ (t - x.exp).toNat)
      (x.mant.natAbs % 10 ^ (t - x.exp).toNat) (10 ^ (t - x.exp).toNat)
    have hdiv : x.mant.natAbs / 10 ^ (t - x.exp).toNat < 10 ^ j := by
      rw [Nat.div_lt_iff_lt_mul hd]
      have hDj : D ≤ j + (t - x.exp).toNat := by omega
      calc x.mant.natAbs < 10 ^ D := hD
        _ ≤ 10 ^ (j + (t - x.exp).toNat) := Nat.pow_le_pow_right (by omega) hDj
        _ = 10 ^ j * 10 ^ (t - x.exp).toNat := pow_add 10 _ _
    omega

theorem pow_le_quantizeRaw_natAbs (p : RoundingOption) (x : Dec) (t : Int) (k j : Nat)
    (hk : 10 ^ k ≤ x.mant.natAbs) (hj : (j : Int) + (t - x.exp) ≤ (k : Int)) :
    10 ^ j ≤ (quantizeRaw p x t).mant.natAbs := by
  unfold quantizeRaw
  split
  · rename_i h
    dsimp only
    rw [Int.natAbs_mul, Int.natAbs_pow]
    have h10 : (10 : Int).natAbs = 10 := rfl
    rw [h10]
    have hkj : j ≤ k + (x.exp - t).toNat := by omega
    calc 10 ^ j ≤ 10 ^ (k + (x.exp - t).toNat) := Nat.pow_le_pow_right (by omega) hkj
      _ = 10 ^ k * 10 ^ (x.exp - t).toNat := pow_add 10 _ _
      _ ≤ x.mant.natAbs * 10 ^ (x.exp - t).toNat := Nat.mul_le_mul_right _ hk
  · rename_i h
    push_neg at h
    dsimp only
    have hδ : ((t - x.exp).toNat : Int) = t - x.exp := Int.toNat_of_nonneg (by omega)
    have hd : 0 < 10 ^ (t - x.exp).toNat := Nat.pos_pow_of_pos _ (by omega)
    have habs : (if x.mant < 0 then
        -(↑(roundQuot p (decide (x.mant < 0)) (x.mant.natAbs / 10 ^ (t - x.exp).toNat)
          (x.mant.natAbs % 10 ^ (t - x.exp).toNat) (10 ^ (t - x.exp).toNat)) : Int)
        else (↑(roundQuot p (decide (x.mant < 0)) (x.mant.natAbs / 10 ^ (t - x.exp).toNat)
          (x.mant.natAbs % 10 ^ (t - x.exp).toNat) (10 ^ (t - x.exp).toNat)) : Int)).natAbs
        = roundQuot p (decide (x.mant < 0)) (x.mant.natAbs / 10 ^ (t - x.exp).toNat)
          (x.mant.natAbs % 10 ^ (t - x.exp).toNat) (10 ^ (t - x.exp).toNat) := by
      split <;> simp
    rw [habs]
    have hq := roundQuot_eq_or p (decide (x.mant < 0))
      (x.mant.natAbs / 10 ^ (t - x.exp).toNat)
      (x.mant.natAbs % 10 ^ (t - x.exp).toNat) (10 ^ (t - x.exp).toNat)
    have hδk : (t - x.exp).toNat ≤ k := by omega
    have hdiv : 10 ^ j ≤ x.mant.natAbs / 10 ^ (t - x.exp).toNat := by
      rw [Nat.le_div_iff_mul_le hd]
      have hjk : j + (t - x.exp).toNat ≤ k := by omega
      calc 10 ^ j * 10 ^ (t - x.exp).toNat = 10 ^ (j + (t - x.exp).toNat) := (pow_add 10 _ _).symm
        _ ≤ 10 ^ k := Nat.pow_le_pow_right (by omega) hjk
        _ ≤ x.mant.natAbs := hk
    omega

theorem quantizeRaw_mant_shift (p : RoundingOption) (m e t k : Int) :
    quantizeRaw p ⟨m, e + k⟩ (t + k) =
      ⟨(quantizeRaw p ⟨m, e⟩ t).mant, (quantizeRaw p ⟨m, e⟩ t).exp + k⟩ := by
  unfold quantizeRaw
  dsimp only
  simp only [add_le_add_iff_right, add_sub_add_right_eq_sub]
  split <;> rfl

/-! ### The adjusted exponent and the measured (`"%E"`) exponent -/

theorem roundSigHE_adjusted_bounds (x : Dec) (hx : x.mant ≠ 0) (n : Nat) (hn : 1 ≤ n) :
    x.adjusted ≤ (roundSigHE x n).adjusted ∧ (roundSigHE x n).adjusted ≤ x.adjusted + 1 := by
  have ha : 1 ≤ x.mant.natAbs := Int.natAbs_pos.mpr hx
  have hDpos := digitsN_pos x.mant.natAbs
  have hhi := lt_pow_digitsN x.mant.natAbs
  have hlo := pow_digitsN_le x.mant.natAbs ha
  have hexp : (roundSigHE x n).exp = x.adjusted - (n : Int) + 1 :=
    quantizeRaw_exp .ROUND_HALF_EVEN x (x.adjusted - (n : Int) + 1)
  have hadj : x.adjusted = (digitsN x.mant.natAbs : Int) - 1 + x.exp := rfl
  constructor
  · -- lower bound: the rounded coefficient keeps at least n digits
    have hge : 10 ^ (n - 1) ≤ (roundSigHE x n).mant.natAbs := by
      apply pow_le_quantizeRaw_natAbs .ROUND_HALF_EVEN x _ (digitsN x.mant.natAbs - 1) (n - 1) hlo
      push_cast [Nat.cast_sub hn, Nat.cast_sub (by omega : 1 ≤ digitsN x.mant.natAbs)]
      omega
    have hlt := lt_digitsN_of_pow_le hge
    show x.adjusted ≤ (digitsN (roundSigHE x n).mant.natAbs : Int) - 1 + (roundSigHE x n).exp
    rw [hexp]
    omega
  · have hle : (roundSigHE x n).mant.natAbs ≤ 10 ^ n := by
      apply quantizeRaw_natAbs_le .ROUND_HALF_EVEN x _ (digitsN x.mant.natAbs) n hhi
      omega
    have hdig : digitsN (roundSigHE x n).mant.natAbs ≤ n + 1 := by
      apply digitsN_le_of_lt_pow (by omega)
      calc (roundSigHE x n).mant.natAbs ≤ 10 ^ n := hle
        _ < 10 ^ (n + 1) := Nat.pow_lt_pow_right (by omega) (by omega)
    show (digitsN (roundSigHE x n).mant.natAbs : Int) - 1 + (roundSigHE x n).exp ≤ x.adjusted + 1
    rw [hexp]
    omega

theorem expE_bounds (x : Dec) (hx : x.mant ≠ 0) :
    x.adjusted ≤ expE x ∧ expE x ≤ x.adjusted + 1 :=
  roundSigHE_adjusted_bounds x hx 7 (by omega)

theorem adjusted_mk_shift (m e k : Int) :
    Dec.adjusted ⟨m, e + k⟩ = Dec.adjusted ⟨m, e⟩ + k := by
  show (digitsN m.natAbs : Int) - 1 + (e + k) = (digitsN m.natAbs : Int) - 1 + e + k
  ring

theorem expE_shift (m e k : Int) : expE ⟨m, e + k⟩ = expE ⟨m, e⟩ + k := by
  unfold expE roundSigHE
  rw [adjusted_mk_shift]
  have harg : Dec.adjusted ⟨m, e⟩ + k - ((7 : Nat) : Int) + 1 =
      (Dec.adjusted ⟨m, e⟩ - ((7 : Nat) : Int) + 1) + k := by ring
  rw [harg, quantizeRaw_mant_shift]
  exact adjusted_mk_shift _ _ k

theorem leading_zeroes_nonneg (x : Dec) : 0 ≤ FormattedValue.leading_zeroes x := by
  unfold FormattedValue.leading_zeroes
  repeat' split
  all_goals omega

theorem leading_zeroes_eq_max (x : Dec) (hx : x.mant ≠ 0) :
    FormattedValue.leading_zeroes x = max 0 (-expE x) := by
  unfold FormattedValue.leading_zeroes
  rw [if_neg hx]
  split
  · rw [max_eq_left (by omega)]
  · rw [max_eq_right (by omega)]

theorem leading_zeroes_zero_of_adjusted_nonneg (x : Dec) (hx : x.mant ≠ 0)
    (h : 0 ≤ x.adjusted) : FormattedValue.leading_zeroes x = 0 := by
  have hb := expE_bounds x hx
  unfold FormattedValue.leading_zeroes
  rw [if_neg hx, if_pos (by omega)]

theorem leading_zeroes_of_mant_zero (x : Dec) (hx : x.mant = 0) :
    FormattedValue.leading_zeroes x = 0 := by
  unfold FormattedValue.leading_zeroes
  rw [if_pos hx]

theorem round28_id (z : Dec) (h : digitsN z.mant.natAbs ≤ 28) : round28 z = z := by
  unfold round28
  rw [if_pos h]

theorem scalebCtx_small (x : Dec) (k : Int) (h : digitsN x.mant.natAbs ≤ 28) :
    scalebCtx x k = ⟨x.mant, x.exp + k⟩ := by
  unfold scalebCtx
  exact round28_id _ h

theorem mulCtx_nonneg (x y : Dec) (hx : 0 ≤ x.mant) (hy : 0 ≤ y.mant) :
    0 ≤ (mulCtx x y).mant := by
  have hprod : 0 ≤ x.mant * y.mant := mul_nonneg hx hy
  unfold mulCtx round28
  split
  · exact hprod
  · dsimp only
    split
    · have hq := quantizeRaw_nonneg .ROUND_HALF_EVEN ⟨x.mant * y.mant, x.exp + y.exp⟩
        (Dec.adjusted ⟨x.mant * y.mant, x.exp + y.exp⟩ - 27) hprod
      dsimp only
      omega
    · exact quantizeRaw_nonneg .ROUND_HALF_EVEN _ _ hprod

namespace FormattedValue

theorem rounded_data_ok_intro {s : FormattedValue} {m : Option Dec} {re rv : Dec}
    (hre : s.rounded_error m = .ok re) (hrv : s.value_branch re m = .ok rv)
    (hneg : ¬ re.mant < 0) :
    s.rounded_data m = .ok (scalebCtx rv (s.exponent_shift rv re),
      scalebCtx re (s.exponent_shift rv re), -(s.exponent_shift rv re)) := by
  unfold FormattedValue.rounded_data
  rw [hre]
  dsimp only
  rw [hrv]
  dsimp only
  rw [if_neg hneg]

end FormattedValue

theorem expE_shift_dec (x : Dec) (k : Int) : expE ⟨x.mant, x.exp + k⟩ = expE x + k := by
  cases x with
  | mk m e => exact expE_shift m e k

theorem roundSigHE_adjusted_of_digits_le (x : Dec) (hx : x.mant ≠ 0) (n : Nat)
    (h : digitsN x.mant.natAbs ≤ n) : (roundSigHE x n).adjusted = x.adjusted := by
  have ha : 1 ≤ x.mant.natAbs := Int.natAbs_pos.mpr hx
  have hadj : x.adjusted = (digitsN x.mant.natAbs : Int) - 1 + x.exp := rfl
  unfold roundSigHE quantizeRaw
  rw [if_pos (by omega : x.adjusted - (n : Int) + 1 ≤ x.exp)]
  show (digitsN (x.mant * (10 : Int) ^ (x.exp - (x.adjusted - (n : Int) + 1)).toNat).natAbs :
      Int) - 1 + (x.adjusted - (n : Int) + 1) = x.adjusted
  rw [Int.natAbs_mul, Int.natAbs_pow]
  have h10 : (10 : Int).natAbs = 10 := rfl
  rw [h10]
  have hδ : (x.exp - (x.adjusted - (n : Int) + 1)).toNat = n - digitsN x.mant.natAbs := by
    omega
  rw [hδ, digitsN_mul_pow ha]
  omega

theorem expE_eq_adjusted_of_digits_le (x : Dec) (hx : x.mant ≠ 0)
    (h : digitsN x.mant.natAbs ≤ 7) : expE x = x.adjusted :=
  roundSigHE_adjusted_of_digits_le x hx 7 h

theorem leading_zeroes_eq_zeroMeasure (x : Dec) (h : digitsN x.mant.natAbs ≤ 7) :
    FormattedValue.leading_zeroes x = zeroMeasure x := by
  by_cases hx : x.mant = 0
  · rw [leading_zeroes_of_mant_zero x hx]
    unfold zeroMeasure
    rw [if_pos hx]
  · rw [leading_zeroes_eq_max x hx, expE_eq_adjusted_of_digits_le x hx h]
    unfold zeroMeasure
    rw [if_neg hx]

/-- Claim C8 (confirmed): a multiplier equal to numeric zero is falsy in
`error * Decimal(multiplier) if multiplier else error`, so `rounded_data` with a zero
multiplier behaves exactly as with no multiplier supplied, rather than scaling the value
and error to zero. -/
theorem claim8_zero_multiplier_is_absent (s : FormattedValue) (z : Dec) (hz : z.mant = 0) :
    s.rounded_data (some z) = s.rounded_data none := by
  have hs : ∀ x : Dec, FormattedValue.scaled x (some z) = FormattedValue.scaled x none := by
    intro x
    unfold FormattedValue.scaled
    dsimp only
    rw [if_pos hz]
  have he : s.rounded_error (some z) = s.rounded_error none := by
    unfold FormattedValue.rounded_error
    rw [hs]
  have hv : ∀ re : Dec, s.value_branch re (some z) = s.value_branch re none := by
    intro re
    unfold FormattedValue.value_branch FormattedValue.rounded_value
    rw [hs]
  unfold FormattedValue.rounded_data
  simp only [he, hv]

/-- Witness for C8 at a concrete instance and the zero multiplier `0.00000`
(`Dec ⟨0, -5⟩`). -/
theorem claim8_zero_multiplier_is_absent_witness :
    FormattedValue.rounded_data ⟨⟨100, 0⟩, ⟨10, 0⟩, 1, 3, .ROUND_HALF_EVEN⟩ (some ⟨0, -5⟩) =
      FormattedValue.rounded_data ⟨⟨100, 0⟩, ⟨10, 0⟩, 1, 3, .ROUND_HALF_EVEN⟩ none :=
  claim8_zero_multiplier_is_absent _ ⟨0, -5⟩ rfl

/-- Claim C2 (code_bug): with `value = 5`, `error = 0` and an explicit multiplier `2`,
the rounded error is exactly zero, yet `rounded_data` returns the value `5` — the
`Decimal(self.value)` branch ignores the multiplier — instead of the scaled
`value × multiplier = 10` required by the claim. -/
theorem claim2_zero_error_drops_multiplier :
    FormattedValue.rounded_data ⟨⟨5, 0⟩, ⟨0, 0⟩, 1, 3, .ROUND_HALF_EVEN⟩ (some ⟨2, 0⟩) =
      .ok (⟨5, 0⟩, ⟨0, 0⟩, 0) ∧
    Dec.val ⟨5, 0⟩ ≠ Dec.val ⟨5, 0⟩ * Dec.val ⟨2, 0⟩ :=
  ⟨by decide, by norm_num [Dec.val]⟩

/-- Claim C10 (confirmed): the natural-language template omits the power-of-ten clause
for exponent `"0"` and prints `x 10` without a caret for exponent `"1"`, and the default
string of `FormattedValue(100, 10, 1)` (threshold 3) is `"(10 ± 1) x 10"`. -/
theorem claim10_natural_template :
    (∀ value error units : String,
      natural_format value error "0" units =
        (if units ≠ "" then "(" ++ value ++ " ± " ++ error ++ ") " ++ units
         else value ++ " ± " ++ error) ∧
      natural_format value error "1" units =
        (if units ≠ "" then "(" ++ value ++ " ± " ++ error ++ ") x 10 " ++ units
         else "(" ++ value ++ " ± " ++ error ++ ") x 10")) ∧
    FormattedValue.str_ ⟨⟨100, 0⟩, ⟨10, 0⟩, 1, 3, .ROUND_HALF_EVEN⟩ = .ok "(10 ± 1) x 10" := by
  refine ⟨fun value error units => ⟨?_, ?_⟩, by decide⟩
  · unfold natural_format
    rw [if_pos rfl]
  · unfold natural_format
    rw [if_neg (by decide), if_pos rfl]

/-- Claim C3 counterexample: at `value = 0.000099999999`, `error = 1E-12` (one
significant figure, threshold 3) the rounded pair is the pair itself; the spec's formula
with the exact `zeroMeasure` (= 5 for the value) gives shift 5, but the code's
`"%E"`-parsed measure rounds `9.9999999E-5` up to `1.000000E-4`, measures 4 leading
zeroes, and shifts by only 4: the returned triple differs from the one the claim
specifies. -/
theorem claim3_counterexample :
    FormattedValue.rounded_error ⟨⟨99999999, -12⟩, ⟨1, -12⟩, 1, 3, .ROUND_HALF_EVEN⟩ none =
      .ok ⟨1, -12⟩ ∧
    FormattedValue.value_branch ⟨⟨99999999, -12⟩, ⟨1, -12⟩, 1, 3, .ROUND_HALF_EVEN⟩
      ⟨1, -12⟩ none = .ok ⟨99999999, -12⟩ ∧
    FormattedValue.rounded_data ⟨⟨99999999, -12⟩, ⟨1, -12⟩, 1, 3, .ROUND_HALF_EVEN⟩ none =
      .ok (⟨99999999, -8⟩, ⟨1, -8⟩, -4) ∧
    specTriple ⟨99999999, -12⟩ ⟨1, -12⟩ 1 3 = (⟨99999999, -7⟩, ⟨1, -7⟩, -5) ∧
    ((⟨99999999, -8⟩, ⟨1, -8⟩, -4) : Dec × Dec × Int) ≠ (⟨99999999, -7⟩, ⟨1, -7⟩, -5) :=
  ⟨by decide, by decide, by decide, by decide, by decide⟩

/-- Claim C3 (corrected): the code derives the leading-zero measure from the `"%E"`
formatting of a binary double and the spec's exact-`zeroMeasure` formula diverges from
it (counterexample at an 8-digit rounded value; subnormal magnitudes diverge even from
the 7-digit decimal rounding).  On the domain where the float rendering is provably
exact — rounded value and rounded error with at most 7 significant digits each and
adjusted exponents within `[-307, 307]` — rounding the float to 7 digits is the
identity, the measured count equals the exact `zeroMeasure`, and `rounded_data` returns
exactly the triple of the claim's formula. -/
theorem claim3_amended (s : FormattedValue) (m : Option Dec) (re rv : Dec)
    (hre : s.rounded_error m = .ok re) (hnn : 0 ≤ re.mant)
    (hbr : s.value_branch re m = .ok rv)
    (hrv7 : digitsN rv.mant.natAbs ≤ 7) (hre7 : digitsN re.mant.natAbs ≤ 7)
    (hrvrange : -307 ≤ rv.adjusted ∧ rv.adjusted ≤ 307)
    (hrerange : -307 ≤ re.adjusted ∧ re.adjusted ≤ 307) :
    s.rounded_data m = .ok (specTriple rv re s.error_significant_figures
      s.leading_zeroes_threshold) := by
  rw [FormattedValue.rounded_data_ok_intro hre hbr (by omega)]
  have hshift : s.exponent_shift rv re =
      specShiftWith zeroMeasure rv re s.error_significant_figures
        s.leading_zeroes_threshold := by
    unfold FormattedValue.exponent_shift specShiftWith FormattedValue.correction_of
    dsimp only
    rw [leading_zeroes_eq_zeroMeasure rv hrv7, leading_zeroes_eq_zeroMeasure re hre7]
  unfold specTriple
  rw [scalebCtx_small rv _ (by omega), scalebCtx_small re _ (by omega), hshift]

/-- Witness for the amended C3 at the instance `(100 ± 10)`, one significant figure:
the returned triple is exactly the spec formula's. -/
theorem claim3_amended_witness :
    FormattedValue.rounded_data ⟨⟨100, 0⟩, ⟨10, 0⟩, 1, 3, .ROUND_HALF_EVEN⟩ none =
      .ok (specTriple ⟨10, 1⟩ ⟨1, 1⟩ 1 3) :=
  claim3_amended ⟨⟨100, 0⟩, ⟨10, 0⟩, 1, 3, .ROUND_HALF_EVEN⟩ none ⟨1, 1⟩ ⟨10, 1⟩
    (by decide) (by decide) (by decide) (by decide) (by decide) (by decide) (by decide)

/-- Claim C7 counterexample: a valid instance whose 31-digit error
`0.4500000000000000000000000000001` sits just above a tie.  With no multiplier the exact
error quantizes (half-down, 1 significant figure) to `0.5`; with the explicit multiplier
`1`, the context multiplication `error * Decimal(1)` first rounds the error to 28 digits
(exactly `0.45`), and the tie then resolves down to `0.4`: the two triples differ. -/
theorem claim7_counterexample :
    FormattedValue.rounded_data
      ⟨⟨10, 0⟩, ⟨4500000000000000000000000000001, -31⟩, 1, 3, .ROUND_HALF_DOWN⟩ none =
      .ok (⟨100, -1⟩, ⟨5, -1⟩, 0) ∧
    FormattedValue.rounded_data
      ⟨⟨10, 0⟩, ⟨4500000000000000000000000000001, -31⟩, 1, 3, .ROUND_HALF_DOWN⟩
      (some ⟨1, 0⟩) = .ok (⟨100, -1⟩, ⟨4, -1⟩, 0) ∧
    Dec.val ⟨5, -1⟩ ≠ Dec.val ⟨4, -1⟩ :=
  ⟨by decide, by decide, by norm_num [Dec.val]⟩

/-- Claim C7 (corrected): `roundedTriple(absent)` and `roundedTriple(multiplier = 1)`
agree on every instance whose value and error coefficients have at most 28 significant
digits, so that the context multiplication by `Decimal(1)` is exact. -/
theorem claim7_amended (s : FormattedValue)
    (hv : digitsN s.value.mant.natAbs ≤ 28) (he : digitsN s.error.mant.natAbs ≤ 28) :
    s.rounded_data (some ⟨1, 0⟩) = s.rounded_data none := by
  have hs : ∀ x : Dec, digitsN x.mant.natAbs ≤ 28 →
      FormattedValue.scaled x (some ⟨1, 0⟩) = FormattedValue.scaled x none := by
    intro x hx
    unfold FormattedValue.scaled
    dsimp only
    rw [if_neg (by decide)]
    unfold mulCtx
    rw [mul_one, add_zero]
    exact round28_id x hx
  have h1 : s.rounded_error (some ⟨1, 0⟩) = s.rounded_error none := by
    unfold FormattedValue.rounded_error
    rw [hs s.error he]
  have h2 : ∀ re : Dec, s.value_branch re (some ⟨1, 0⟩) = s.value_branch re none := by
    intro re
    unfold FormattedValue.value_branch FormattedValue.rounded_value
    rw [hs s.value hv]
  unfold FormattedValue.rounded_data
  simp only [h1, h2]

/-- Witness for the amended C7 at the instance `(100 ± 10)`. -/
theorem claim7_amended_witness :
    FormattedValue.rounded_data ⟨⟨100, 0⟩, ⟨10, 0⟩, 1, 3, .ROUND_HALF_EVEN⟩ (some ⟨1, 0⟩) =
      FormattedValue.rounded_data ⟨⟨100, 0⟩, ⟨10, 0⟩, 1, 3, .ROUND_HALF_EVEN⟩ none :=
  claim7_amended _ (by decide) (by decide)

theorem mk_closed_form (v e : Dec) (i j : Int) (r : RoundingOption) :
    FormattedValue.mk_ v e (.ofInt i) (.ofInt j) (.ofOption r) =
      (if e.mant < 0 then .error .valueError
       else if i < 1 then .error .valueError
       else if j < 0 then .error .valueError
       else .ok ⟨v, e, i.toNat, j.toNat, r⟩) := by
  by_cases h1 : e.mant < 0
  · have l : FormattedValue.mk_ v e (.ofInt i) (.ofInt j) (.ofOption r) =
        .error .valueError := by
      unfold FormattedValue.mk_ FormattedValue.set_error
      rw [if_pos h1]
    rw [l, if_pos h1]
  · by_cases h2 : i < 1
    · have l : FormattedValue.mk_ v e (.ofInt i) (.ofInt j) (.ofOption r) =
          .error .valueError := by
        unfold FormattedValue.mk_ FormattedValue.set_error
          FormattedValue.set_error_significant_figures
        rw [if_neg h1]
        dsimp only
        rw [if_pos h2]
      rw [l, if_neg h1, if_pos h2]
    · by_cases h3 : j < 0
      · have l : FormattedValue.mk_ v e (.ofInt i) (.ofInt j) (.ofOption r) =
            .error .valueError := by
          unfold FormattedValue.mk_ FormattedValue.set_error
            FormattedValue.set_error_significant_figures
            FormattedValue.set_leading_zeroes_threshold
          rw [if_neg h1]
          dsimp only
          rw [if_neg h2]
          dsimp only
          rw [if_pos h3]
        rw [l, if_neg h1, if_neg h2, if_pos h3]
      · have l : FormattedValue.mk_ v e (.ofInt i) (.ofInt j) (.ofOption r) =
            .ok ⟨v, e, i.toNat, j.toNat, r⟩ := by
          unfold FormattedValue.mk_ FormattedValue.set_error
            FormattedValue.set_error_significant_figures
            FormattedValue.set_leading_zeroes_threshold FormattedValue.set_rounding
          rw [if_neg h1]
          dsimp only
          rw [if_neg h2]
          dsimp only
          rw [if_neg h3]
        rw [l, if_neg h1, if_neg h2, if_neg h3]

/-- Claim C9 (confirmed): each setter commits its field exactly when the invariant holds
and raises the corresponding validation error otherwise — rejecting a write produces no
new record, so the previously committed value is untouched — and construction succeeds
(committing exactly the validated arguments) precisely when every argument is valid,
failing with a validation error otherwise without producing any record. -/
theorem claim9_validated_construction :
    (∀ (s : FormattedValue) (e : Dec),
      (s.set_error e = .ok { s with error := e } ↔ 0 ≤ e.mant) ∧
      (s.set_error e = .error .valueError ↔ e.mant < 0)) ∧
    (∀ (s : FormattedValue) (n : Int),
      (s.set_error_significant_figures (.ofInt n) =
          .ok { s with error_significant_figures := n.toNat } ↔ 1 ≤ n) ∧
      (s.set_error_significant_figures (.ofInt n) = .error .valueError ↔ n < 1) ∧
      s.set_error_significant_figures .notInt = .error .typeError) ∧
    (∀ (s : FormattedValue) (n : Int),
      (s.set_leading_zeroes_threshold (.ofInt n) =
          .ok { s with leading_zeroes_threshold := n.toNat } ↔ 0 ≤ n) ∧
      (s.set_leading_zeroes_threshold (.ofInt n) = .error .valueError ↔ n < 0) ∧
      s.set_leading_zeroes_threshold .notInt = .error .typeError) ∧
    (∀ (s : FormattedValue) (r : RoundingOption),
      s.set_rounding (.ofOption r) = .ok { s with rounding := r } ∧
      s.set_rounding .invalid = .error .valueError) ∧
    (∀ (v e : Dec) (i j : Int) (r : RoundingOption),
      (FormattedValue.mk_ v e (.ofInt i) (.ofInt j) (.ofOption r) =
          .ok ⟨v, e, i.toNat, j.toNat, r⟩ ↔ 0 ≤ e.mant ∧ 1 ≤ i ∧ 0 ≤ j) ∧
      ((∃ err, FormattedValue.mk_ v e (.ofInt i) (.ofInt j) (.ofOption r) = .error err) ↔
        (e.mant < 0 ∨ i < 1 ∨ j < 0))) ∧
    (∀ (v e : Dec) (lzt : IntArg) (ra : RoundingArg),
      ∃ err, FormattedValue.mk_ v e .notInt lzt ra = .error err) ∧
    (∀ (v e : Dec) (i : Int) (ra : RoundingArg),
      ∃ err, FormattedValue.mk_ v e (.ofInt i) .notInt ra = .error err) ∧
    (∀ (v e : Dec) (i j : Int),
      ∃ err, FormattedValue.mk_ v e (.ofInt i) (.ofInt j) .invalid = .error err) := by
  refine ⟨?_, ?_, ?_, fun s r => ⟨rfl, rfl⟩, ?_, ?_, ?_, ?_⟩
  · intro s e
    unfold FormattedValue.set_error
    split_ifs with h
    · exact ⟨⟨fun hc => absurd hc (by simp), fun hc => absurd h (by omega)⟩,
        ⟨fun _ => h, fun _ => rfl⟩⟩
    · exact ⟨⟨fun _ => by omega, fun _ => rfl⟩,
        ⟨fun hc => absurd hc (by simp), fun hc => absurd hc h⟩⟩
  · intro s n
    unfold FormattedValue.set_error_significant_figures
    dsimp only
    split_ifs with h
    · exact ⟨⟨fun hc => absurd hc (by simp), fun hc => absurd h (by omega)⟩,
        ⟨fun _ => h, fun _ => rfl⟩, rfl⟩
    · exact ⟨⟨fun _ => by omega, fun _ => rfl⟩,
        ⟨fun hc => absurd hc (by simp), fun hc => absurd hc h⟩, rfl⟩
  · intro s n
    unfold FormattedValue.set_leading_zeroes_threshold
    dsimp only
    split_ifs with h
    · exact ⟨⟨fun hc => absurd hc (by simp), fun hc => absurd h (by omega)⟩,
        ⟨fun _ => h, fun _ => rfl⟩, rfl⟩
    · exact ⟨⟨fun _ => by omega, fun _ => rfl⟩,
        ⟨fun hc => absurd hc (by simp), fun hc => absurd hc h⟩, rfl⟩
  · intro v e i j r
    rw [mk_closed_form]
    split_ifs with h1 h2 h3
    · exact ⟨⟨fun hc => absurd hc (by simp), fun hc => by omega⟩,
        ⟨fun _ => Or.inl h1, fun _ => ⟨.valueError, rfl⟩⟩⟩
    · exact ⟨⟨fun hc => absurd hc (by simp), fun hc => by omega⟩,
        ⟨fun _ => Or.inr (Or.inl h2), fun _ => ⟨.valueError, rfl⟩⟩⟩
    · exact ⟨⟨fun hc => absurd hc (by simp), fun hc => by omega⟩,
        ⟨fun _ => Or.inr (Or.inr h3), fun _ => ⟨.valueError, rfl⟩⟩⟩
    · refine ⟨⟨fun _ => ⟨by omega, by omega, by omega⟩, fun _ => rfl⟩,
        ⟨fun hc => ?_, fun hc => ?_⟩⟩
      · obtain ⟨err, hc⟩ := hc
        exact absurd hc (by simp)
      · omega
  · intro v e lzt ra
    unfold FormattedValue.mk_ FormattedValue.set_error
      FormattedValue.set_error_significant_figures
    by_cases h1 : e.mant < 0
    · refine ⟨.valueError, ?_⟩
      rw [if_pos h1]
    · refine ⟨.typeError, ?_⟩
      rw [if_neg h1]
  · intro v e i ra
    unfold FormattedValue.mk_ FormattedValue.set_error
      FormattedValue.set_error_significant_figures
      FormattedValue.set_leading_zeroes_threshold
    by_cases h1 : e.mant < 0
    · refine ⟨.valueError, ?_⟩
      rw [if_pos h1]
    · by_cases h2 : i < 1
      · refine ⟨.valueError, ?_⟩
        rw [if_neg h1]
        dsimp only
        rw [if_pos h2]
      · refine ⟨.typeError, ?_⟩
        rw [if_neg h1]
        dsimp only
        rw [if_neg h2]
  · intro v e i j
    unfold FormattedValue.mk_ FormattedValue.set_error
      FormattedValue.set_error_significant_figures
      FormattedValue.set_leading_zeroes_threshold FormattedValue.set_rounding
    by_cases h1 : e.mant < 0
    · refine ⟨.valueError, ?_⟩
      rw [if_pos h1]
    · by_cases h2 : i < 1
      · refine ⟨.valueError, ?_⟩
        rw [if_neg h1]
        dsimp only
        rw [if_pos h2]
      · by_cases h3 : j < 0
        · refine ⟨.valueError, ?_⟩
          rw [if_neg h1]
          dsimp only
          rw [if_neg h2]
          dsimp only
          rw [if_pos h3]
        · refine ⟨.valueError, ?_⟩
          rw [if_neg h1]
          dsimp only
          rw [if_neg h2]
          dsimp only
          rw [if_neg h3]

